import Mathlib

/-!
Shallow embedding of the `metanear/public-chat-contract-rs` contract
(`src/lib.rs`).  Strings are modelled at the byte level (`List Nat`),
matching the Rust code, which validates and hashes `as_bytes()` views.
The NEAR host environment (sha256, caller identities, block timestamp,
and the serde-json decoders, all external collaborators per the spec)
is a record of parameters `Env`.  A panic (`env::panic`, `assert!`,
`.expect`, `.unwrap`) aborts the call with no visible effects, so every
fallible operation returns `Option`: `none` is an abort, and the state
it would have produced never exists.
-/

namespace MetanearChat

/-- Byte strings: `AppId`, `Key`, `Value`, `AccountId`, `ChannelId` are
Rust `String`s, always consumed through `as_bytes()`. -/
abbrev Bytes : Type := List Nat

/-- The constant `CHAT_APP_ID = b"chat"` as bytes. -/
def chatAppId : Bytes := [99, 104, 97, 116]

/-- One arm of the byte `match` in `verify_app_id` / `verify_channel_id`:
`b'a'..=b'z' | b'0'..=b'9' | b'-' | b'_' | b'.'`. -/
def allowedByte (c : Nat) : Bool :=
  (97 ≤ c && c ≤ 122) || (48 ≤ c && c ≤ 57) || c == 45 || c == 95 || c == 46

/-- Rust `fn verify_app_id(app_id: &AppId)`: panics unless the byte length is
between 2 and 64 and every byte is allowed.  `true` means the checks pass. -/
def verify_app_id (app_id : Bytes) : Bool :=
  if app_id.length < 2 || app_id.length > 64 then false
  else app_id.all allowedByte

/-- Rust `fn verify_channel_id(channel_id: &ChannelId)`: panics unless the byte
length is between 1 and 128 and every byte is allowed. -/
def verify_channel_id (channel_id : Bytes) : Bool :=
  if channel_id.length < 1 || channel_id.length > 128 then false
  else channel_id.all allowedByte

/-- Rust enum `GetRequest`: the three structured queries of the chat protocol. -/
inductive GetRequest : Type where
  | status : GetRequest
  | channelStatus (channel_id : Bytes) : GetRequest
  | channelMessages (channel_id : Bytes) (from_index limit : Nat) : GetRequest
  deriving DecidableEq

/-- Rust enum `IncomingMessage`: the single structured incoming-message variant. -/
inductive IncomingMessage : Type where
  | chatMessage (channel_id : Bytes) (text : Bytes) : IncomingMessage
  deriving DecidableEq

/-- The host environment of one invocation: sha256, the two identities,
the block timestamp (nanoseconds), and the serde-json decoders for the two
request payload types (serialization codecs are external collaborators). -/
structure Env : Type where
  hash : Bytes → Bytes
  current_account_id : Bytes
  predecessor_account_id : Bytes
  block_timestamp : Nat
  decodeGetRequest : Bytes → Option GetRequest
  decodeIncomingMessage : Bytes → Option IncomingMessage

/-- Rust `fn app_key(app_id, key)`: the byte `b'a'` (97) followed by
`sha256(app_id)` followed by `sha256(key)`. -/
def app_key (env : Env) (app_id key : Bytes) : Bytes :=
  97 :: (env.hash app_id ++ env.hash key)

/-- Rust `fn messages_key_from_hash(channel_hash)`: the byte `b'm'` (109)
followed by the channel hash. -/
def messages_key_from_hash (channel_hash : Bytes) : Bytes :=
  109 :: channel_hash

/-- Rust `struct Message { time, sender_id, text }`; `time` is already divided
down to milliseconds when the message is built. -/
structure Message : Type where
  time : Nat
  sender_id : Bytes
  text : Bytes
  deriving DecidableEq

/-- Rust `struct Channel { channel_id, messages }`; the persistent `Vector` of
messages is modelled as the list of its elements in index order. -/
structure Channel : Type where
  channel_id : Bytes
  messages : List Message
  deriving DecidableEq

/-- Rust `Channel::new(channel_id)`: fresh channel with an empty message vector. -/
def Channel.new (channel_id : Bytes) : Channel :=
  { channel_id := channel_id, messages := [] }

/-- Rust `Channel::add_message(sender_id, text)`: pushes a message whose time is
`env::block_timestamp() / 1000000`. -/
def Channel.add_message (env : Env) (c : Channel) (sender_id text : Bytes) :
    Channel :=
  { c with
    messages := c.messages ++
      [{ time := env.block_timestamp / 1000000, sender_id := sender_id,
         text := text }] }

/-- First value stored under key `k` in an association list (the lookup of
`near_sdk::collections::Map` and of raw storage reads). -/
def listFind {α : Type} (k : Bytes) : List (Bytes × α) → Option α
  | [] => none
  | (k1, v) :: t => if k1 = k then some v else listFind k t

/-- Insert-or-replace under key `k` (the write of
`near_sdk::collections::Map::insert` and of `env::storage_write`). -/
def listInsert {α : Type} (k : Bytes) (v : α) :
    List (Bytes × α) → List (Bytes × α)
  | [] => [(k, v)]
  | (k1, v1) :: t =>
    if k1 = k then (k, v) :: t else (k1, v1) :: listInsert k v t

/-- Remove the entry under key `k` if present (`env::storage_remove`). -/
def listRemove {α : Type} (k : Bytes) :
    List (Bytes × α) → List (Bytes × α)
  | [] => []
  | (k1, v1) :: t => if k1 = k then t else (k1, v1) :: listRemove k t

/-- The contract state together with the raw storage region addressed by
`app_key` (tag byte `b'a'`): `struct MetanearChat { channels,
total_num_messages }` plus the generic store.  The three regions (tag
`b'a'` for generic entries, `b'c'` for the channels map, `b'm'` for message
vectors) are disjoint by their first byte, so they are modelled as separate
fields. -/
structure State : Type where
  channels : List (Bytes × Channel)
  total_num_messages : Nat
  storage : List (Bytes × Bytes)
  deriving DecidableEq

/-- Rust `MetanearChat::new()`: empty channels map, zero messages, and (on a
fresh account) empty generic storage. -/
def initState : State :=
  { channels := [], total_num_messages := 0, storage := [] }

/-- Rust `fn assert_self()`: panics unless the current account is the
predecessor account.  `true` means the call may proceed. -/
def assert_self (env : Env) : Bool :=
  env.current_account_id == env.predecessor_account_id

/-- Rust `MetanearChat::master_set(app_id, key, value)`: self-call gate, then a
raw storage write at `app_key(app_id, key)`.  No identifier validation. -/
def master_set (env : Env) (s : State) (app_id key value : Bytes) :
    Option State :=
  if assert_self env then
    some { s with storage := listInsert (app_key env app_id key) value s.storage }
  else none

/-- Rust `MetanearChat::master_remove(app_id, key)`: self-call gate, then a raw
storage remove at `app_key(app_id, key)`.  No identifier validation. -/
def master_remove (env : Env) (s : State) (app_id key : Bytes) :
    Option State :=
  if assert_self env then
    some { s with storage := listRemove (app_key env app_id key) s.storage }
  else none

/-- Rust `MetanearChat::get_channel(channel_id)`: validates the channel id, then
looks the channel up by its sha256 hash; if absent, returns a fresh, empty,
unsaved channel value. -/
def get_channel (env : Env) (s : State) (channel_id : Bytes) :
    Option Channel :=
  if verify_channel_id channel_id then
    some ((listFind (env.hash channel_id) s.channels).getD
      (Channel.new channel_id))
  else none

/-- Rust `MetanearChat::save_channel(channel)`: persists the channel under the
sha256 hash of its own `channel_id`. -/
def save_channel (env : Env) (s : State) (c : Channel) : State :=
  { s with channels := listInsert (env.hash c.channel_id) c s.channels }

/-- The `while` loop of the `ChannelMessages` arm of `get`: starting from
accumulator `acc` and cursor `index`, keep pushing `messages[index]` while
fewer than `limit` messages are collected and `index` is in range. -/
def getLoop (msgs : List Message) (limit : Nat) (index : Nat)
    (acc : List Message) : List Message :=
  if h : acc.length < limit ∧ index < msgs.length then
    getLoop msgs limit (index + 1) (acc ++ [msgs.get ⟨index, h.2⟩])
  else acc
termination_by msgs.length - index
decreasing_by simp_wf; omega

/-- The messages returned by the `ChannelMessages` arm: the loop run from
an empty accumulator and cursor `from_index`. -/
def messagesSlice (msgs : List Message) (from_index limit : Nat) :
    List Message :=
  getLoop msgs limit from_index []

/-- The serialized responses of `get`: either raw stored bytes (non-chat
tenants) or a JSON-encoded structured response (chat tenant). -/
inductive GetValue : Type where
  | raw (bytes : Bytes) : GetValue
  | statusResponse (num_channels total_num_messages : Nat) : GetValue
  | channelStatusResponse (num_messages : Nat) : GetValue
  | channelMessagesResponse (messages : List Message) : GetValue
  deriving DecidableEq

/-- Rust `MetanearChat::get(app_id, key)`: validates `app_id`; for the reserved
chat tenant decodes `key` as a `GetRequest` (decode failure panics) and
answers from the channels map; otherwise reads raw storage at
`app_key(app_id, key)`.  The method borrows `&self`; the returned state is
the state as left by the call. -/
def get (env : Env) (s : State) (app_id key : Bytes) :
    Option (State × Option GetValue) :=
  if verify_app_id app_id then
    if app_id = chatAppId then
      match env.decodeGetRequest key with
      | none => none
      | some GetRequest.status =>
        some (s, some (GetValue.statusResponse s.channels.length
          s.total_num_messages))
      | some (GetRequest.channelStatus channel_id) =>
        match get_channel env s channel_id with
        | none => none
        | some c =>
          some (s, some (GetValue.channelStatusResponse c.messages.length))
      | some (GetRequest.channelMessages channel_id from_index limit) =>
        match get_channel env s channel_id with
        | none => none
        | some c =>
          some (s, some (GetValue.channelMessagesResponse
            (messagesSlice c.messages from_index limit)))
    else
      some (s, (listFind (app_key env app_id key) s.storage).map GetValue.raw)
  else none

/-- Rust `MetanearChat::post_message(app_id, message)`: validates `app_id`,
requires it to be the chat tenant, decodes the message, loads the channel,
appends one message stamped with the caller identity, saves the channel,
and increments the total message counter. -/
def post_message (env : Env) (s : State) (app_id message : Bytes) :
    Option State :=
  if verify_app_id app_id then
    if app_id = chatAppId then
      match env.decodeIncomingMessage message with
      | none => none
      | some (IncomingMessage.chatMessage channel_id text) =>
        match get_channel env s channel_id with
        | none => none
        | some c =>
          let c2 := Channel.add_message env c env.predecessor_account_id text
          let s2 := save_channel env s c2
          some { s2 with total_num_messages := s2.total_num_messages + 1 }
    else none
  else none

/-- Total number of messages stored across all channels of the map. -/
def sumMsgs (l : List (Bytes × Channel)) : Nat :=
  (l.map (fun p => p.2.messages.length)).sum

/-- One successful public invocation against a host whose (deterministic)
sha256 function is `H`; caller identities, the timestamp, the decoders and
the arguments vary freely from call to call. -/
inductive Step (H : Bytes → Bytes) : State → State → Prop where
  | masterSet (env : Env) (s s2 : State) (app_id key value : Bytes)
      (hH : env.hash = H)
      (h : master_set env s app_id key value = some s2) : Step H s s2
  | masterRemove (env : Env) (s s2 : State) (app_id key : Bytes)
      (hH : env.hash = H)
      (h : master_remove env s app_id key = some s2) : Step H s s2
  | postMessage (env : Env) (s s2 : State) (app_id message : Bytes)
      (hH : env.hash = H)
      (h : post_message env s app_id message = some s2) : Step H s s2
  | getCall (env : Env) (s s2 : State) (app_id key : Bytes)
      (r : Option GetValue) (hH : env.hash = H)
      (h : get env s app_id key = some (s2, r)) : Step H s s2

/-- States reachable from the freshly constructed contract by any sequence
of public operations. -/
inductive Reaches (H : Bytes → Bytes) : State → Prop where
  | start : Reaches H initState
  | step (s s2 : State) : Reaches H s → Step H s s2 → Reaches H s2

/-- An injective hash with 32-byte outputs, standing in for sha256 in
witnesses: the first byte encodes the whole input (bytes are unbounded
naturals in the model), the rest are zero padding. -/
def encodeHash (b : Bytes) : Bytes :=
  Encodable.encode b :: List.replicate 31 0

/-- Concrete environment for the collision-freedom witness. -/
def encEnv : Env :=
  { hash := encodeHash, current_account_id := [97],
    predecessor_account_id := [97], block_timestamp := 0,
    decodeGetRequest := fun _ => none,
    decodeIncomingMessage := fun _ => none }

/-- Concrete self-call environment: account `"a"` calls itself, the block
timestamp is 0, and the decoders recognise three fixed payloads —
`[1]` decodes to `ChatMessage{channel_id:"g", text:"hi"}`, `[2]` to
`ChannelStatus{channel_id:"g"}`, `[3]` to
`ChannelMessages{channel_id:"g", from_index:0, limit:10}`; every other
payload (for example the non-JSON key `"xy" = [120, 121]`) fails to
decode, as serde-json would. -/
def env0 : Env :=
  { hash := fun b => b, current_account_id := [97],
    predecessor_account_id := [97], block_timestamp := 0,
    decodeGetRequest := fun k =>
      if k = [2] then some (GetRequest.channelStatus [103])
      else if k = [3] then some (GetRequest.channelMessages [103] 0 10)
      else none,
    decodeIncomingMessage := fun m =>
      if m = [1] then some (IncomingMessage.chatMessage [103] [104, 105])
      else none }

/-- Concrete non-self environment: account `"a"` is called by `"b"`. -/
def envNonSelf : Env :=
  { env0 with predecessor_account_id := [98] }

/-- The channel `"g"` holding the single message posted via `env0`. -/
def chan1 : Channel :=
  { channel_id := [103],
    messages := [{ time := 0, sender_id := [97], text := [104, 105] }] }

/-- The state after one `post_message` of payload `[1]` under `env0`. -/
def state1 : State :=
  { channels := [([103], chan1)], total_num_messages := 1, storage := [] }

/-- The channel `"g"` after a second identical post. -/
def chan2 : Channel :=
  { channel_id := [103],
    messages := [{ time := 0, sender_id := [97], text := [104, 105] },
                 { time := 0, sender_id := [97], text := [104, 105] }] }

/-- The state after two `post_message` calls of payload `[1]` under `env0`. -/
def state2 : State :=
  { channels := [([103], chan2)], total_num_messages := 2, storage := [] }

/-- The state after `master_set("chat", "xy", "v")` from `initState` under
`env0` (identity hash): one generic-store entry at
`'a' ++ "chat" ++ "xy"`. -/
def chatSetState : State :=
  { channels := [], total_num_messages := 0,
    storage := [([97, 99, 104, 97, 116, 120, 121], [118])] }

/-- The state after `master_set("ab", "k", "v")` from `initState` under
`env0` (identity hash): one generic-store entry at `'a' ++ "ab" ++ "k"`. -/
def setState : State :=
  { channels := [], total_num_messages := 0,
    storage := [([97, 97, 98, 107], [118])] }

/-! Association-list lemmas for the map and raw-storage operations. -/

theorem listFind_listInsert_self {α : Type} (k : Bytes) (v : α)
    (l : List (Bytes × α)) : listFind k (listInsert k v l) = some v := by
  induction l with
  | nil => simp [listInsert, listFind]
  | cons p t ih =>
    obtain ⟨k1, v1⟩ := p
    by_cases h : k1 = k <;> simp [listInsert, listFind, h, ih]

theorem listFind_listInsert_ne {α : Type} (k k2 : Bytes) (v : α)
    (l : List (Bytes × α)) (h : k2 ≠ k) :
    listFind k2 (listInsert k v l) = listFind k2 l := by
  induction l with
  | nil => simp [listInsert, listFind, Ne.symm h]
  | cons p t ih =>
    obtain ⟨k1, v1⟩ := p
    by_cases h1 : k1 = k <;>
      simp [listInsert, listFind, h1, Ne.symm h, ih]

theorem mem_listInsert {α : Type} (k : Bytes) (v : α)
    (l : List (Bytes × α)) (p : Bytes × α) (h : p ∈ listInsert k v l) :
    p = (k, v) ∨ p ∈ l := by
  induction l with
  | nil => simpa [listInsert] using h
  | cons q t ih =>
    obtain ⟨k1, v1⟩ := q
    by_cases h1 : k1 = k
    · simp only [listInsert, if_pos h1, List.mem_cons] at h
      rcases h with h | h
      · exact Or.inl h
      · exact Or.inr (List.mem_cons_of_mem _ h)
    · simp only [listInsert, if_neg h1, List.mem_cons] at h
      rcases h with h | h
      · exact Or.inr (by simp [h])
      · rcases ih h with h2 | h2
        · exact Or.inl h2
        · exact Or.inr (List.mem_cons_of_mem _ h2)

theorem listFind_mem {α : Type} (k : Bytes) (v : α)
    (l : List (Bytes × α)) (h : listFind k l = some v) : (k, v) ∈ l := by
  induction l with
  | nil => simp [listFind] at h
  | cons q t ih =>
    obtain ⟨k1, v1⟩ := q
    by_cases h1 : k1 = k
    · simp only [listFind, if_pos h1] at h
      subst h1
      injection h with h2
      subst h2
      exact List.mem_cons_self _ _
    · simp only [listFind, if_neg h1] at h
      exact List.mem_cons_of_mem _ (ih h)

theorem listFind_eq_none {α : Type} (k : Bytes) (l : List (Bytes × α))
    (h : k ∉ l.map Prod.fst) : listFind k l = none := by
  induction l with
  | nil => simp [listFind]
  | cons q t ih =>
    obtain ⟨k1, v1⟩ := q
    simp only [List.map_cons, List.mem_cons] at h
    push_neg at h
    simp [listFind, Ne.symm h.1, ih h.2]

theorem mem_keys_listInsert {α : Type} (k : Bytes) (v : α)
    (l : List (Bytes × α)) (x : Bytes)
    (h : x ∈ (listInsert k v l).map Prod.fst) :
    x = k ∨ x ∈ l.map Prod.fst := by
  simp only [List.mem_map] at h
  obtain ⟨p, hp, hx⟩ := h
  rcases mem_listInsert k v l p hp with h1 | h1
  · subst h1
    exact Or.inl hx.symm
  · exact Or.inr (List.mem_map.mpr ⟨p, h1, hx⟩)

theorem mem_listRemove {α : Type} (k : Bytes)
    (l : List (Bytes × α)) (p : Bytes × α) (h : p ∈ listRemove k l) :
    p ∈ l := by
  induction l with
  | nil => simp [listRemove] at h
  | cons q t ih =>
    obtain ⟨k1, v1⟩ := q
    by_cases h1 : k1 = k
    · simp only [listRemove, if_pos h1] at h
      exact List.mem_cons_of_mem _ h
    · simp only [listRemove, if_neg h1, List.mem_cons] at h
      rcases h with h | h
      · simp [h]
      · exact List.mem_cons_of_mem _ (ih h)

theorem keysNodup_listInsert {α : Type} (k : Bytes) (v : α)
    (l : List (Bytes × α)) (h : (l.map Prod.fst).Nodup) :
    ((listInsert k v l).map Prod.fst).Nodup := by
  induction l with
  | nil => simp [listInsert]
  | cons q t ih =>
    obtain ⟨k1, v1⟩ := q
    simp only [List.map_cons, List.nodup_cons] at h
    by_cases h1 : k1 = k
    · subst h1
      simpa [listInsert] using h
    · simp only [listInsert, if_neg h1, List.map_cons, List.nodup_cons]
      refine ⟨fun hmem => ?_, ih h.2⟩
      rcases mem_keys_listInsert k v t k1 hmem with h2 | h2
      · exact h1 h2
      · exact h.1 h2

theorem keysNodup_listRemove {α : Type} (k : Bytes)
    (l : List (Bytes × α)) (h : (l.map Prod.fst).Nodup) :
    ((listRemove k l).map Prod.fst).Nodup := by
  induction l with
  | nil => simp [listRemove]
  | cons q t ih =>
    obtain ⟨k1, v1⟩ := q
    simp only [List.map_cons, List.nodup_cons] at h
    by_cases h1 : k1 = k
    · simpa [listRemove, h1] using h.2
    · simp only [listRemove, if_neg h1, List.map_cons, List.nodup_cons]
      refine ⟨fun hmem => ?_, ih h.2⟩
      simp only [List.mem_map] at hmem
      obtain ⟨p, hp, hx⟩ := hmem
      exact h.1 (List.mem_map.mpr ⟨p, mem_listRemove k t p hp, hx⟩)

theorem listFind_listRemove_self {α : Type} (k : Bytes)
    (l : List (Bytes × α)) (h : (l.map Prod.fst).Nodup) :
    listFind k (listRemove k l) = none := by
  induction l with
  | nil => simp [listRemove, listFind]
  | cons q t ih =>
    obtain ⟨k1, v1⟩ := q
    simp only [List.map_cons, List.nodup_cons] at h
    by_cases h1 : k1 = k
    · subst h1
      simp only [listRemove, if_pos rfl]
      exact listFind_eq_none k1 t h.1
    · simp [listRemove, listFind, h1, ih h.2]

theorem sumMsgs_listInsert (k : Bytes) (c : Channel)
    (l : List (Bytes × Channel)) :
    sumMsgs (listInsert k c l) +
      (listFind k l).elim 0 (fun c1 => c1.messages.length) =
      sumMsgs l + c.messages.length := by
  induction l with
  | nil => simp [listInsert, listFind, sumMsgs]
  | cons q t ih =>
    obtain ⟨k1, v1⟩ := q
    by_cases h1 : k1 = k
    · simp [listInsert, listFind, sumMsgs, h1]
      omega
    · simp only [listInsert, if_neg h1, listFind, sumMsgs, List.map_cons,
        List.sum_cons] at ih ⊢
      omega

theorem sumMsgs_listInsert_found (k : Bytes) (c c0 : Channel)
    (l : List (Bytes × Channel)) (hf : listFind k l = some c0) :
    sumMsgs (listInsert k c l) + c0.messages.length =
      sumMsgs l + c.messages.length := by
  have h := sumMsgs_listInsert k c l
  rw [hf] at h
  exact h

theorem sumMsgs_listInsert_new (k : Bytes) (c : Channel)
    (l : List (Bytes × Channel)) (hf : listFind k l = none) :
    sumMsgs (listInsert k c l) = sumMsgs l + c.messages.length := by
  have h := sumMsgs_listInsert k c l
  rw [hf] at h
  exact h

/-! Correctness of the pagination loop. -/

theorem getLoop_eq (msgs : List Message) (limit : Nat) :
    ∀ (n index : Nat) (acc : List Message), msgs.length - index ≤ n →
      acc.length ≤ limit →
      getLoop msgs limit index acc =
        acc ++ (msgs.drop index).take (limit - acc.length) := by
  intro n
  induction n with
  | zero =>
    intro index acc hn hacc
    rw [getLoop]
    have hidx : msgs.length ≤ index := by omega
    rw [dif_neg (by omega), List.drop_eq_nil_of_le hidx]
    simp
  | succ n ih =>
    intro index acc hn hacc
    rw [getLoop]
    by_cases h : acc.length < limit ∧ index < msgs.length
    · rw [dif_pos h]
      rw [ih (index + 1) (acc ++ [msgs.get ⟨index, h.2⟩]) (by omega)
        (by simp; omega)]
      have hdrop : msgs.drop index = msgs[index] :: msgs.drop (index + 1) :=
        List.drop_eq_getElem_cons h.2
      have hlim : limit - acc.length = (limit - (acc.length + 1)) + 1 := by
        omega
      simp only [List.length_append, List.length_cons, List.length_nil,
        hdrop, hlim, List.take_succ_cons, List.append_assoc,
        List.cons_append, List.nil_append, List.get_eq_getElem]
    · rw [dif_neg h]
      push_neg at h
      by_cases h1 : acc.length < limit
      · have hidx : msgs.length ≤ index := by
          have := h h1
          omega
        rw [List.drop_eq_nil_of_le hidx]
        simp
      · have : limit - acc.length = 0 := by omega
        simp [this]

theorem messagesSlice_eq (msgs : List Message) (from_index limit : Nat) :
    messagesSlice msgs from_index limit =
      (msgs.drop from_index).take limit := by
  have h := getLoop_eq msgs limit msgs.length from_index [] (by omega)
    (by simp)
  simpa [messagesSlice] using h

/-! Characterizations of the successful runs of each operation. -/

theorem master_set_some (env : Env) (s : State) (app_id key value : Bytes)
    (s2 : State) (h : master_set env s app_id key value = some s2) :
    assert_self env = true ∧
    s2 = { s with
      storage := listInsert (app_key env app_id key) value s.storage } := by
  by_cases ha : assert_self env = true
  · rw [master_set, if_pos ha] at h
    injection h with h2
    exact ⟨ha, h2.symm⟩
  · rw [master_set, if_neg ha] at h
    cases h

theorem master_remove_some (env : Env) (s : State) (app_id key : Bytes)
    (s2 : State) (h : master_remove env s app_id key = some s2) :
    assert_self env = true ∧
    s2 = { s with
      storage := listRemove (app_key env app_id key) s.storage } := by
  by_cases ha : assert_self env = true
  · rw [master_remove, if_pos ha] at h
    injection h with h2
    exact ⟨ha, h2.symm⟩
  · rw [master_remove, if_neg ha] at h
    cases h

theorem get_channel_some (env : Env) (s : State) (channel_id : Bytes)
    (c : Channel) (h : get_channel env s channel_id = some c) :
    verify_channel_id channel_id = true ∧
    c = (listFind (env.hash channel_id) s.channels).getD
      (Channel.new channel_id) := by
  by_cases hv : verify_channel_id channel_id = true
  · rw [get_channel, if_pos hv] at h
    injection h with h2
    exact ⟨hv, h2.symm⟩
  · rw [get_channel, if_neg hv] at h
    cases h

theorem post_message_some (env : Env) (s : State) (app_id message : Bytes)
    (s2 : State) (h : post_message env s app_id message = some s2) :
    verify_app_id app_id = true ∧ app_id = chatAppId ∧
    ∃ channel_id text c,
      env.decodeIncomingMessage message =
        some (IncomingMessage.chatMessage channel_id text) ∧
      get_channel env s channel_id = some c ∧
      s2 = { channels := listInsert (env.hash c.channel_id)
               (Channel.add_message env c env.predecessor_account_id text)
               s.channels,
             total_num_messages := s.total_num_messages + 1,
             storage := s.storage } := by
  unfold post_message at h
  by_cases hv : verify_app_id app_id = true
  case neg => rw [if_neg hv] at h; cases h
  rw [if_pos hv] at h
  by_cases hc : app_id = chatAppId
  case neg => rw [if_neg hc] at h; cases h
  rw [if_pos hc] at h
  refine ⟨hv, hc, ?_⟩
  cases hdec : env.decodeIncomingMessage message with
  | none => rw [hdec] at h; cases h
  | some im =>
    rw [hdec] at h
    obtain ⟨channel_id, text⟩ := im
    dsimp only at h
    cases hch : get_channel env s channel_id with
    | none => rw [hch] at h; cases h
    | some c =>
      rw [hch] at h
      dsimp only at h
      injection h with h2
      exact ⟨channel_id, text, c, rfl, hch, h2.symm⟩

theorem get_state_eq (env : Env) (s : State) (app_id key : Bytes)
    (p : State × Option GetValue) (h : get env s app_id key = some p) :
    p.1 = s := by
  unfold get at h
  by_cases hv : verify_app_id app_id = true
  case neg => rw [if_neg hv] at h; cases h
  rw [if_pos hv] at h
  by_cases hc : app_id = chatAppId
  case neg =>
    rw [if_neg hc] at h
    injection h with h2
    rw [← h2]
  rw [if_pos hc] at h
  cases hdec : env.decodeGetRequest key with
  | none => rw [hdec] at h; cases h
  | some req =>
    rw [hdec] at h
    cases req with
    | status =>
      injection h with h2
      rw [← h2]
    | channelStatus channel_id =>
      dsimp only at h
      cases hch : get_channel env s channel_id with
      | none => rw [hch] at h; cases h
      | some c =>
        rw [hch] at h
        dsimp only at h
        injection h with h2
        rw [← h2]
    | channelMessages channel_id from_index limit =>
      dsimp only at h
      cases hch : get_channel env s channel_id with
      | none => rw [hch] at h; cases h
      | some c =>
        rw [hch] at h
        dsimp only at h
        injection h with h2
        rw [← h2]

/-! Invariants of the reachable states. -/

theorem reaches_hash_inv (H : Bytes → Bytes) (s : State)
    (h : Reaches H s) : ∀ p ∈ s.channels, H p.2.channel_id = p.1 := by
  induction h with
  | start => simp [initState]
  | step s1 s2 hr hstep ih =>
    cases hstep with
    | masterSet env _ _ app_id key value hH heq =>
      obtain ⟨_, hs2⟩ := master_set_some env s1 app_id key value s2 heq
      subst hs2
      exact ih
    | masterRemove env _ _ app_id key hH heq =>
      obtain ⟨_, hs2⟩ := master_remove_some env s1 app_id key s2 heq
      subst hs2
      exact ih
    | getCall env _ _ app_id key r hH heq =>
      have h2 := get_state_eq env s1 app_id key (s2, r) heq
      simp only at h2
      subst h2
      exact ih
    | postMessage env _ _ app_id message hH heq =>
      obtain ⟨_, _, channel_id, text, c, hdec, hch, hs2⟩ :=
        post_message_some env s1 app_id message s2 heq
      subst hs2
      intro p hp
      rcases mem_listInsert _ _ _ p hp with h1 | h1
      · subst h1
        simp [Channel.add_message, hH]
      · exact ih p h1

theorem post_message_count (env : Env) (s s2 : State)
    (app_id message : Bytes)
    (hinv : ∀ p ∈ s.channels, env.hash p.2.channel_id = p.1)
    (h : post_message env s app_id message = some s2) :
    s2.total_num_messages = s.total_num_messages + 1 ∧
    sumMsgs s2.channels = sumMsgs s.channels + 1 := by
  obtain ⟨hv, hc, channel_id, text, c, hdec, hch, hs2⟩ :=
    post_message_some env s app_id message s2 h
  obtain ⟨hvc, hcdef⟩ := get_channel_some env s channel_id c hch
  subst hs2
  refine ⟨rfl, ?_⟩
  show sumMsgs (listInsert (env.hash c.channel_id)
    (Channel.add_message env c env.predecessor_account_id text)
    s.channels) = sumMsgs s.channels + 1
  have hlen : (Channel.add_message env c env.predecessor_account_id
      text).messages.length = c.messages.length + 1 := by
    simp [Channel.add_message]
  cases hfind : listFind (env.hash channel_id) s.channels with
  | some c0 =>
    have hcc : c = c0 := by rw [hcdef, hfind]; rfl
    have hkey : env.hash c.channel_id = env.hash channel_id := by
      rw [hcc]
      exact hinv (env.hash channel_id, c0) (listFind_mem _ _ _ hfind)
    have hfind2 : listFind (env.hash c.channel_id) s.channels = some c := by
      rw [hkey, hfind, hcc]
    have hs := sumMsgs_listInsert_found (env.hash c.channel_id)
      (Channel.add_message env c env.predecessor_account_id text) c
      s.channels hfind2
    omega
  | none =>
    have hcc : c = Channel.new channel_id := by rw [hcdef, hfind]; rfl
    have hkey : env.hash c.channel_id = env.hash channel_id := by
      rw [hcc]
      rfl
    have hfind2 : listFind (env.hash c.channel_id) s.channels = none := by
      rw [hkey, hfind]
    have hs := sumMsgs_listInsert_new (env.hash c.channel_id)
      (Channel.add_message env c env.predecessor_account_id text)
      s.channels hfind2
    have hzero : c.messages.length = 0 := by rw [hcc]; rfl
    omega

theorem reaches_count_inv (H : Bytes → Bytes) (s : State)
    (h : Reaches H s) : s.total_num_messages = sumMsgs s.channels := by
  induction h with
  | start => simp [initState, sumMsgs]
  | step s1 s2 hr hstep ih =>
    cases hstep with
    | masterSet env _ _ app_id key value hH heq =>
      obtain ⟨_, hs2⟩ := master_set_some env s1 app_id key value s2 heq
      subst hs2
      exact ih
    | masterRemove env _ _ app_id key hH heq =>
      obtain ⟨_, hs2⟩ := master_remove_some env s1 app_id key s2 heq
      subst hs2
      exact ih
    | getCall env _ _ app_id key r hH heq =>
      have h2 := get_state_eq env s1 app_id key (s2, r) heq
      simp only at h2
      subst h2
      exact ih
    | postMessage env _ _ app_id message hH heq =>
      have hinv : ∀ p ∈ s1.channels, env.hash p.2.channel_id = p.1 := by
        intro p hp
        rw [hH]
        exact reaches_hash_inv H s1 hr p hp
      obtain ⟨h1, h2⟩ :=
        post_message_count env s1 s2 app_id message hinv heq
      omega

theorem reaches_storage_nodup (H : Bytes → Bytes) (s : State)
    (h : Reaches H s) : (s.storage.map Prod.fst).Nodup := by
  induction h with
  | start => simp [initState]
  | step s1 s2 hr hstep ih =>
    cases hstep with
    | masterSet env _ _ app_id key value hH heq =>
      obtain ⟨_, hs2⟩ := master_set_some env s1 app_id key value s2 heq
      subst hs2
      exact keysNodup_listInsert _ _ _ ih
    | masterRemove env _ _ app_id key hH heq =>
      obtain ⟨_, hs2⟩ := master_remove_some env s1 app_id key s2 heq
      subst hs2
      exact keysNodup_listRemove _ _ ih
    | getCall env _ _ app_id key r hH heq =>
      have h2 := get_state_eq env s1 app_id key (s2, r) heq
      simp only at h2
      subst h2
      exact ih
    | postMessage env _ _ app_id message hH heq =>
      obtain ⟨_, _, channel_id, text, c, hdec, hch, hs2⟩ :=
        post_message_some env s1 app_id message s2 heq
      subst hs2
      exact ih

/-! Properties of the concrete witness hash. -/

theorem encodeHash_injective : Function.Injective encodeHash := by
  intro a b h
  have h2 : Encodable.encode a = Encodable.encode b := by
    injection h
  exact Encodable.encode_injective h2

theorem encodeHash_len (b : Bytes) : (encodeHash b).length = 32 := by
  simp [encodeHash]

/-- Both validators share this shape: a length gate and then a byte scan. -/
theorem verify_bytes_iff (lo hi : Nat) (s : Bytes) :
    (if s.length < lo || s.length > hi then false
     else s.all allowedByte) = true ↔
    (lo ≤ s.length ∧ s.length ≤ hi ∧ ∀ c ∈ s,
      (97 ≤ c ∧ c ≤ 122) ∨ (48 ≤ c ∧ c ≤ 57) ∨ c = 45 ∨ c = 95 ∨
        c = 46) := by
  constructor
  · intro h
    split at h
    · cases h
    · rename_i hcond
      simp only [Bool.or_eq_true, decide_eq_true_eq, not_or] at hcond
      refine ⟨by omega, by omega, ?_⟩
      intro c hc
      have h2 := (List.all_eq_true.mp h) c hc
      simp only [allowedByte, Bool.or_eq_true, Bool.and_eq_true,
        decide_eq_true_eq, beq_iff_eq] at h2
      tauto
  · rintro ⟨h1, h2, h3⟩
    rw [if_neg (by simp only [Bool.or_eq_true, decide_eq_true_eq]; omega)]
    rw [List.all_eq_true]
    intro c hc
    have h4 := h3 c hc
    simp only [allowedByte, Bool.or_eq_true, Bool.and_eq_true,
      decide_eq_true_eq, beq_iff_eq]
    tauto

/-! Claim theorems. -/

/-- C1: for every two distinct (tenantId, key) pairs, the storage
addresses derived by `app_key` (the byte `'a'` followed by the two hashes)
differ, assuming the host hash is injective with its fixed 32-byte output;
in particular tenant `"ab"` with key `"c"` never collides with tenant
`"a"` with key `"bc"`. -/
theorem C1_app_key_collision_free (env : Env)
    (hinj : Function.Injective env.hash)
    (hlen : ∀ b : Bytes, (env.hash b).length = 32) :
    (∀ a1 k1 a2 k2 : Bytes, (a1, k1) ≠ (a2, k2) →
      app_key env a1 k1 ≠ app_key env a2 k2) ∧
    app_key env [97, 98] [99] ≠ app_key env [97] [98, 99] := by
  have main : ∀ a1 k1 a2 k2 : Bytes, (a1, k1) ≠ (a2, k2) →
      app_key env a1 k1 ≠ app_key env a2 k2 := by
    intro a1 k1 a2 k2 hne heq
    unfold app_key at heq
    injection heq with _ heq2
    have hl : (env.hash a1).length = (env.hash a2).length := by
      rw [hlen, hlen]
    obtain ⟨h1, h2⟩ := List.append_inj heq2 hl
    exact hne (by rw [hinj h1, hinj h2])
  exact ⟨main, main _ _ _ _ (by decide)⟩

/-- Witness for C1: a concrete injective 32-byte hash separates the two
addresses of the cross-field example. -/
theorem C1_witness :
    app_key encEnv [97, 98] [99] ≠ app_key encEnv [97] [98, 99] :=
  (C1_app_key_collision_free encEnv encodeHash_injective encodeHash_len).2

/-- C7: tenant-id validation passes exactly when the byte length is
between 2 and 64 and every byte is in `[a-z0-9\-_.]`, and channel-id
validation passes exactly when the byte length is between 1 and 128 over
the same charset; the spec examples `""`, `"A"`, a 65-character id,
`"ab"` and `"valid-id_1.2"` behave as stated. -/
theorem C7_validation_charset :
    (∀ s : Bytes, verify_app_id s = true ↔
      (2 ≤ s.length ∧ s.length ≤ 64 ∧ ∀ c ∈ s,
        (97 ≤ c ∧ c ≤ 122) ∨ (48 ≤ c ∧ c ≤ 57) ∨ c = 45 ∨ c = 95 ∨
          c = 46)) ∧
    (∀ s : Bytes, verify_channel_id s = true ↔
      (1 ≤ s.length ∧ s.length ≤ 128 ∧ ∀ c ∈ s,
        (97 ≤ c ∧ c ≤ 122) ∨ (48 ≤ c ∧ c ≤ 57) ∨ c = 45 ∨ c = 95 ∨
          c = 46)) ∧
    verify_app_id [] = false ∧
    verify_app_id [65] = false ∧
    verify_app_id (List.replicate 65 97) = false ∧
    verify_app_id [97, 98] = true ∧
    verify_app_id [118, 97, 108, 105, 100, 45, 105, 100, 95, 49, 46, 50] =
      true := by
  refine ⟨fun s => verify_bytes_iff 2 64 s, fun s => verify_bytes_iff 1 128 s,
    by decide, by decide, ?_, by decide, by decide⟩
  have h : (List.replicate 65 97 : Bytes).length = 65 := by simp
  unfold verify_app_id
  rw [if_pos]
  simp [h]

/-- C2: with a decodable `ChannelMessages` request on a valid channel id,
`get` succeeds for every `from_index` `k` and `limit` `m` (out-of-range
offsets included) and returns exactly the slice
`(messages.drop k).take m`: its length is `min m (N - k)` when `k < N`,
its `i`-th element is the channel's `(k+i)`-th message, and it is empty
when `k ≥ N`. -/
theorem C2_channel_messages_slice (env : Env) (s : State)
    (key channel_id : Bytes) (k m : Nat) (c : Channel)
    (hdec : env.decodeGetRequest key =
      some (GetRequest.channelMessages channel_id k m))
    (hch : get_channel env s channel_id = some c) :
    get env s chatAppId key =
      some (s, some (GetValue.channelMessagesResponse
        ((c.messages.drop k).take m))) ∧
    (k < c.messages.length →
      ((c.messages.drop k).take m).length = min m (c.messages.length - k)) ∧
    (∀ i, i < ((c.messages.drop k).take m).length →
      ((c.messages.drop k).take m)[i]? = c.messages[k + i]?) ∧
    (c.messages.length ≤ k → (c.messages.drop k).take m = []) := by
  refine ⟨?_, ?_, ?_, ?_⟩
  · unfold get
    rw [if_pos (by decide), if_pos rfl, hdec]
    dsimp only
    rw [hch]
    dsimp only
    rw [messagesSlice_eq]
  · intro hk
    simp
  · intro i hi
    simp only [List.length_take, List.length_drop, lt_min_iff] at hi
    rw [List.getElem?_take, if_pos hi.1, List.getElem?_drop]
  · intro hk
    rw [List.drop_eq_nil_of_le hk]
    simp

/-- Witness for C2: reading the one-message channel `"g"` of `state1` with
`from_index` 0 and `limit` 10 returns that message slice. -/
theorem C2_witness :
    get env0 state1 chatAppId [3] =
      some (state1, some (GetValue.channelMessagesResponse
        ((chan1.messages.drop 0).take 10))) :=
  (C2_channel_messages_slice env0 state1 [3] [103] 0 10 chan1
    (by decide) (by decide)).1

/-- C9: a `ChannelStatus` query for a valid channel id that is absent from
the channels map succeeds (no error) and reports zero messages, because
`get_channel` yields a fresh, empty, unsaved channel value carrying the
requested id. -/
theorem C9_unknown_channel_status (env : Env) (s : State)
    (key channel_id : Bytes)
    (hdec : env.decodeGetRequest key =
      some (GetRequest.channelStatus channel_id))
    (hvalid : verify_channel_id channel_id = true)
    (habsent : listFind (env.hash channel_id) s.channels = none) :
    get_channel env s channel_id = some (Channel.new channel_id) ∧
    (Channel.new channel_id).messages = [] ∧
    get env s chatAppId key =
      some (s, some (GetValue.channelStatusResponse 0)) := by
  have hch : get_channel env s channel_id =
      some (Channel.new channel_id) := by
    unfold get_channel
    rw [if_pos hvalid, habsent]
    rfl
  refine ⟨hch, rfl, ?_⟩
  unfold get
  rw [if_pos (by decide), if_pos rfl, hdec]
  dsimp only
  rw [hch]
  dsimp only
  rfl

/-- Witness for C9: querying the never-written channel `"g"` on the fresh
contract returns zero messages. -/
theorem C9_witness :
    get env0 initState chatAppId [2] =
      some (initState, some (GetValue.channelStatusResponse 0)) :=
  (C9_unknown_channel_status env0 initState [2] [103] (by decide)
    (by decide) rfl).2.2

/-- C10: `get` never changes the contract state: whenever it succeeds, the
state it leaves behind — channels map, message counter and generic-store
entries — is exactly the input state, so in particular the virtual channel
built for an unknown channel id is never persisted; when it aborts, no
resulting state exists at all and the host keeps the prior state. -/
theorem C10_get_frame (env : Env) (s : State) (app_id key : Bytes)
    (p : State × Option GetValue) (h : get env s app_id key = some p) :
    p.1 = s ∧ p.1.channels = s.channels ∧
    p.1.total_num_messages = s.total_num_messages ∧
    p.1.storage = s.storage := by
  have h2 := get_state_eq env s app_id key p h
  exact ⟨h2, by rw [h2], by rw [h2], by rw [h2]⟩

/-- Witness for C10: a concrete generic-store read leaves `state1` as it
was. -/
theorem C10_witness :
    (state1, (none : Option GetValue)).1 = state1 :=
  (C10_get_frame env0 state1 [97, 98] [107] (state1, none) (by decide)).1

/-- C3: in every reachable state the running counter equals the sum of the
message counts of all stored channels, and every successful post_message
from such a state increments the counter and the sum by exactly one. -/
theorem C3_counter_invariant (H : Bytes → Bytes) (s : State)
    (h : Reaches H s) :
    s.total_num_messages = sumMsgs s.channels ∧
    ∀ env app_id message s2, env.hash = H →
      post_message env s app_id message = some s2 →
      s2.total_num_messages = s.total_num_messages + 1 ∧
      sumMsgs s2.channels = sumMsgs s.channels + 1 := by
  refine ⟨reaches_count_inv H s h, ?_⟩
  intro env app_id message s2 hH hpost
  refine post_message_count env s s2 app_id message ?_ hpost
  intro p hp
  rw [hH]
  exact reaches_hash_inv H s h p hp

/-- The one-message state is reachable under the identity hash. -/
theorem reaches_state1 : Reaches (fun b => b) state1 :=
  Reaches.step initState state1 Reaches.start
    (Step.postMessage env0 initState state1 chatAppId [1] rfl (by decide))

/-- Witness for C3 at the reachable one-message state. -/
theorem C3_witness :
    state1.total_num_messages = sumMsgs state1.channels :=
  (C3_counter_invariant (fun b => b) state1 reaches_state1).1

/-- C8: from any reachable state, every public operation leaves every
stored channel in place with the same id and the same messages at the same
indices, at most appending new ones at the end: channels are append-only
and never destroyed. -/
theorem C8_append_only (H : Bytes → Bytes) (s s2 : State)
    (hr : Reaches H s) (hstep : Step H s s2) :
    ∀ kh c, listFind kh s.channels = some c →
      ∃ c2, listFind kh s2.channels = some c2 ∧
        c2.channel_id = c.channel_id ∧
        (∃ rest, c2.messages = c.messages ++ rest) ∧
        ∀ i, i < c.messages.length → c2.messages[i]? = c.messages[i]? := by
  intro kh c hfindc
  cases hstep with
  | masterSet env _ _ app_id key value hH heq =>
    obtain ⟨_, hs2⟩ := master_set_some env s app_id key value s2 heq
    subst hs2
    exact ⟨c, hfindc, rfl, ⟨[], by simp⟩, fun i _ => rfl⟩
  | masterRemove env _ _ app_id key hH heq =>
    obtain ⟨_, hs2⟩ := master_remove_some env s app_id key s2 heq
    subst hs2
    exact ⟨c, hfindc, rfl, ⟨[], by simp⟩, fun i _ => rfl⟩
  | getCall env _ _ app_id key r hH heq =>
    have h2 := get_state_eq env s app_id key (s2, r) heq
    simp only at h2
    subst h2
    exact ⟨c, hfindc, rfl, ⟨[], by simp⟩, fun i _ => rfl⟩
  | postMessage env _ _ app_id message hH heq =>
    obtain ⟨_, _, channel_id, text, c0, hdec, hch, hs2⟩ :=
      post_message_some env s app_id message s2 heq
    obtain ⟨hvc, hc0def⟩ := get_channel_some env s channel_id c0 hch
    subst hs2
    show ∃ c2, listFind kh (listInsert (env.hash c0.channel_id)
      (Channel.add_message env c0 env.predecessor_account_id text)
      s.channels) = some c2 ∧ _
    by_cases hk : kh = env.hash c0.channel_id
    · cases hfind0 : listFind (env.hash channel_id) s.channels with
      | some cX =>
        have hcc : c0 = cX := by rw [hc0def, hfind0]; rfl
        have hkey : env.hash c0.channel_id = env.hash channel_id := by
          have h5 := reaches_hash_inv H s hr (env.hash channel_id, cX)
            (listFind_mem _ _ _ hfind0)
          dsimp only at h5
          rw [hH] at h5
          rw [hcc, hH]
          exact h5
        have hceq : c = c0 := by
          rw [hk, hkey, hfind0] at hfindc
          injection hfindc with h3
          rw [← h3, hcc]
        refine ⟨Channel.add_message env c0 env.predecessor_account_id text,
          ?_, ?_, ?_, ?_⟩
        · rw [hk]
          exact listFind_listInsert_self _ _ _
        · rw [hceq]
          rfl
        · exact ⟨_, by rw [hceq]; rfl⟩
        · intro i hi
          rw [hceq] at hi ⊢
          show (c0.messages ++ _)[i]? = _
          rw [List.getElem?_append_left hi]
      | none =>
        exfalso
        have hkey : env.hash c0.channel_id = env.hash channel_id := by
          rw [hc0def, hfind0]
          rfl
        rw [hk, hkey, hfind0] at hfindc
        cases hfindc
    · refine ⟨c, ?_, rfl, ⟨[], by simp⟩, fun i _ => rfl⟩
      rw [listFind_listInsert_ne _ _ _ _ hk]
      exact hfindc

/-- Witness for C8: posting a second message to channel `"g"` keeps the
first message at index 0 and only appends. -/
theorem C8_witness :
    ∃ c2, listFind [103] state2.channels = some c2 ∧
      c2.channel_id = chan1.channel_id ∧
      (∃ rest, c2.messages = chan1.messages ++ rest) ∧
      ∀ i, i < chan1.messages.length →
        c2.messages[i]? = chan1.messages[i]? :=
  C8_append_only (fun b => b) state1 state2 reaches_state1
    (Step.postMessage env0 state1 state2 chatAppId [1] rfl (by decide))
    [103] chan1 (by decide)

/-- C5: every masterSet or masterRemove call whose caller is not the
contract account itself aborts — the self check runs on every privileged
call — and an aborted call produces no successor state: generic storage,
channels map and counter stay as they were. -/
theorem C5_self_gate (env : Env) (s : State) (app_id key value : Bytes)
    (h : env.current_account_id ≠ env.predecessor_account_id) :
    master_set env s app_id key value = none ∧
    master_remove env s app_id key = none := by
  have ha : assert_self env = false := by
    simp only [assert_self, beq_eq_false_iff_ne, ne_eq]
    exact h
  rw [master_set, master_remove, ha]
  simp

/-- Witness for C5: the caller `"b"` of `envNonSelf` is rejected. -/
theorem C5_witness :
    master_set envNonSelf initState [97, 98] [107] [118] = none ∧
    master_remove envNonSelf initState [97, 98] [107] = none :=
  C5_self_gate envNonSelf initState [97, 98] [107] [118] (by decide)

/-- C4 as stated is false at the reserved tenant: `"chat"` is itself a
valid tenant id, yet after a successful `master_set("chat","xy","v")` by
the self caller, `get("chat","xy")` does not return the value — the chat
tenant routes into the protocol decoder, which aborts on the non-JSON
key `"xy"`, and never reads the raw entry that `master_set` wrote. -/
theorem C4_counterexample :
    verify_app_id chatAppId = true ∧
    master_set env0 initState chatAppId [120, 121] [118] =
      some chatSetState ∧
    get env0 chatSetState chatAppId [120, 121] = none :=
  ⟨by decide, by decide, by decide⟩

/-- C4 (amended): for every valid tenantId other than the reserved chat
tenant, `get` right after a successful `master_set` returns the stored
value, and after a subsequent `master_remove` it returns "not found".
The remove case uses that the storage keys carry no duplicates, which
holds in every reachable state (`reaches_storage_nodup`). -/
theorem C4_set_get_remove (env : Env) (s : State)
    (app_id key value : Bytes)
    (hnd : (s.storage.map Prod.fst).Nodup)
    (hvalid : verify_app_id app_id = true) (hne : app_id ≠ chatAppId) :
    ∀ s1, master_set env s app_id key value = some s1 →
      get env s1 app_id key = some (s1, some (GetValue.raw value)) ∧
      ∀ s2, master_remove env s1 app_id key = some s2 →
        get env s2 app_id key = some (s2, none) := by
  intro s1 hset
  obtain ⟨ha, hs1⟩ := master_set_some env s app_id key value s1 hset
  constructor
  · unfold get
    rw [if_pos hvalid, if_neg hne]
    subst hs1
    dsimp only
    rw [listFind_listInsert_self]
    rfl
  · intro s2 hrem
    obtain ⟨_, hs2⟩ := master_remove_some env s1 app_id key s2 hrem
    unfold get
    rw [if_pos hvalid, if_neg hne]
    subst hs2
    subst hs1
    dsimp only
    rw [listFind_listRemove_self _ _ (keysNodup_listInsert _ _ _ hnd)]
    rfl

/-- Witness for C4 (amended): set then read then remove then read on
tenant `"ab"`, key `"k"`. -/
theorem C4_witness :
    get env0 setState [97, 98] [107] =
      some (setState, some (GetValue.raw [118])) ∧
    get env0 initState [97, 98] [107] = some (initState, none) := by
  have h := C4_set_get_remove env0 initState [97, 98] [107] [118]
    (by decide) (by decide) (by decide) setState (by decide)
  exact ⟨h.1, h.2 initState (by decide)⟩

/-- C6 as stated is false: `master_set` (and `master_remove`) perform no
identifier validation at all — self-called with the invalid tenant id
`"A"` they do not abort but hash it and write the storage entry. -/
theorem C6_counterexample :
    verify_app_id [65] = false ∧
    master_set env0 initState [65] [107] [118] =
      some { channels := [], total_num_messages := 0,
             storage := [([97, 65, 107], [118])] } :=
  ⟨by decide, by decide⟩

/-- C6 (amended): `get` and `post_message` do enforce tenant-id validation
before any hashing or storage access and abort on every invalid id; but
`master_set` and `master_remove` validate nothing: self-called with any
tenant id, valid or invalid, they hash it and access storage. -/
theorem C6_validation_coverage (env : Env) (s : State) :
    (∀ app_id key, verify_app_id app_id = false →
      get env s app_id key = none) ∧
    (∀ app_id message, verify_app_id app_id = false →
      post_message env s app_id message = none) ∧
    (∀ app_id key value, assert_self env = true →
      master_set env s app_id key value =
        some { s with
          storage := listInsert (app_key env app_id key) value
            s.storage } ∧
      master_remove env s app_id key =
        some { s with
          storage := listRemove (app_key env app_id key) s.storage }) := by
  refine ⟨?_, ?_, ?_⟩
  · intro app_id key hv
    unfold get
    rw [if_neg (by simp [hv])]
  · intro app_id message hv
    unfold post_message
    rw [if_neg (by simp [hv])]
  · intro app_id key value ha
    exact ⟨by rw [master_set, if_pos ha], by rw [master_remove, if_pos ha]⟩

/-- Witness for C6 (amended): tenant `"A"` is rejected by `get` and
`post_message` but written by the self-called `master_set`. -/
theorem C6_witness :
    get env0 initState [65] [107] = none ∧
    post_message env0 initState [65] [1] = none ∧
    master_set env0 initState [65] [107] [118] =
      some { initState with
        storage := listInsert (app_key env0 [65] [107]) [118]
          initState.storage } := by
  have h := C6_validation_coverage env0 initState
  exact ⟨h.1 [65] [107] (by decide), h.2.1 [65] [1] (by decide),
    (h.2.2 [65] [107] [118] (by decide)).1⟩

end MetanearChat
